import Mathlib

/-!
Verification of the sparsey scheduler core against its specification.

The Rust source is shallowly embedded:
* `TypeData` (a type identity token compared with `==`) is modelled as `Nat`.
* `SystemParamKind` and its `conflicts_with` method are translated from
  `src/system/param.rs`.
* The schedule builder (`src/schedule/mod.rs`) operates on an abstract
  `SystemConfig` carrying exactly the data the builder inspects
  (`is_exclusive`, `is_thread_local`, `param_kinds`) plus an opaque `tag`
  standing for the boxed system payload, which the builder never inspects.
* Fallible vector operations (`Vec::remove`/`Vec::insert`, which panic on
  out-of-range indices) return `Option`.
-/

namespace Sparsey

/-- Model of `TypeData`: a type identity compared by equality. -/
abbrev TypeData := Nat

/-- The kind of data that can be borrowed from a registry
(`SystemParamKind` in `src/system/param.rs`). -/
inductive SystemParamKind
  | entities
  | state (t : TypeData)
  | comp (t : TypeData)
  | compMut (t : TypeData)
  | res (t : TypeData)
  | resMut (t : TypeData)
deriving DecidableEq

/-- Translation of `SystemParamKind::conflicts_with`
(`src/system/param.rs`, lines 31-42): the six listed pairs conflict when
their `TypeData` are equal, everything else returns `false`. -/
def SystemParamKind.conflicts_with : SystemParamKind → SystemParamKind → Bool
  | .comp c1, .compMut c2 => c1 == c2
  | .compMut c1, .comp c2 => c1 == c2
  | .compMut c1, .compMut c2 => c1 == c2
  | .res r1, .resMut r2 => r1 == r2
  | .resMut r1, .res r2 => r1 == r2
  | .resMut r1, .resMut r2 => r1 == r2
  | _, _ => false

/-- The component type a kind refers to, if any (`Comp`/`CompMut`). -/
def SystemParamKind.compType : SystemParamKind → Option TypeData
  | .comp t => some t
  | .compMut t => some t
  | _ => none

/-- The resource type a kind refers to, if any (`Res`/`ResMut`). -/
def SystemParamKind.resType : SystemParamKind → Option TypeData
  | .res t => some t
  | .resMut t => some t
  | _ => none

/-- Whether a kind is an exclusive access (`CompMut`/`ResMut`). -/
def SystemParamKind.isExclusiveAccess : SystemParamKind → Bool
  | .compMut _ => true
  | .resMut _ => true
  | _ => false

/-- Abstract model of `SystemConfig` as the schedule builder sees it: the
builder only calls `is_exclusive`, `is_thread_local` and `param_kinds`.
The `tag` field stands for the opaque boxed system payload (never inspected
by the builder); in theorems it records the label a system was added under
or serves as an identity. -/
structure SystemConfig where
  is_exclusive : Bool
  is_thread_local : Bool
  param_kinds : List SystemParamKind
  tag : Nat
deriving DecidableEq

/-- Steps that can be run by a `Schedule` (`ScheduleStep` in
`src/schedule/mod.rs`). -/
inductive ScheduleStep
  | systems (ss : List SystemConfig)
  | localSystems (ss : List SystemConfig)
  | exclusiveSystems (ss : List SystemConfig)
  | barrier
deriving DecidableEq

/-- A built schedule: an ordered list of steps. -/
structure Schedule where
  steps : List ScheduleStep
deriving DecidableEq

/-- The per-label staging steps (`SimpleScheduleStep` in
`src/schedule/mod.rs`). -/
inductive SimpleScheduleStep
  | system (s : SystemConfig)
  | localSystem (s : SystemConfig)
  | exclusiveSystem (s : SystemConfig)
  | barrier
deriving DecidableEq

/-- The `system_conflict` test of `step_to_non_conflicting_systems`
(`src/schedule/mod.rs`, lines 272-283): some kind already in the batch
conflicts with some kind of the incoming system. -/
def systems_conflict (batch : List SystemConfig) (system : SystemConfig) : Bool :=
  (batch.flatMap fun s => s.param_kinds).any fun p1 =>
    system.param_kinds.any fun p2 => p1.conflicts_with p2

/-- Model of the parallel placement scan of `build_with_max_threads`
(`src/schedule/mod.rs`, lines 296-307):
`steps.iter_mut().rev().map_while(step_to_non_conflicting_systems)
      .filter(|systems| systems.len() < max_threads).last()`.
The argument list is the built steps in reverse order (head = most recently
opened step), matching the `rev()` iteration. `map_while` stops at the
first conflicting batch or non-`Systems` step; the `filter` skips full
batches without stopping the walk; `last()` selects the deepest (earliest
opened) batch that passed the filter. Returns the updated reversed list
with the chosen batch extended, or `none` when no batch was selected. -/
def insertIntoBatch (max_threads : Nat) (system : SystemConfig) :
    List ScheduleStep → Option (List ScheduleStep)
  | [] => none
  | ScheduleStep.systems batch :: rest =>
    if systems_conflict batch system then
      none
    else
      match insertIntoBatch max_threads system rest with
      | some rest2 => some (ScheduleStep.systems batch :: rest2)
      | none =>
        if batch.length < max_threads then
          some (ScheduleStep.systems (batch ++ [system]) :: rest)
        else
          none
  | ScheduleStep.localSystems _ :: _ => none
  | ScheduleStep.exclusiveSystems _ :: _ => none
  | ScheduleStep.barrier :: _ => none

/-- The barrier inserted when the previous step is a parallel `Systems` step
(`src/schedule/mod.rs`, lines 290-292 and 323-327). Operates on the
reversed step list. -/
def maybeBarrier (rsteps : List ScheduleStep) : List ScheduleStep :=
  match rsteps with
  | ScheduleStep.systems _ :: _ => ScheduleStep.barrier :: rsteps
  | _ => rsteps

/-- One iteration of the inner `for step in set.drain(..)` loop of
`build_with_max_threads` (`src/schedule/mod.rs`, lines 294-329), on the
reversed step list. -/
def processSimpleStep (max_threads : Nat) (rsteps : List ScheduleStep) :
    SimpleScheduleStep → List ScheduleStep
  | SimpleScheduleStep.system s =>
    match insertIntoBatch max_threads s rsteps with
    | some r => r
    | none => ScheduleStep.systems [s] :: rsteps
  | SimpleScheduleStep.localSystem s =>
    match rsteps with
    | ScheduleStep.localSystems ss :: rest =>
      ScheduleStep.localSystems (ss ++ [s]) :: rest
    | _ => ScheduleStep.localSystems [s] :: rsteps
  | SimpleScheduleStep.exclusiveSystem s =>
    match rsteps with
    | ScheduleStep.exclusiveSystems ss :: rest =>
      ScheduleStep.exclusiveSystems (ss ++ [s]) :: rest
    | _ => ScheduleStep.exclusiveSystems [s] :: rsteps
  | SimpleScheduleStep.barrier => maybeBarrier rsteps

/-- Processing of one label whose set is present: push a barrier when the
last step is a parallel `Systems` step, then fold the set's staged steps
(`src/schedule/mod.rs`, lines 288-330). -/
def processLabel (max_threads : Nat) (rsteps : List ScheduleStep)
    (set : List SimpleScheduleStep) : List ScheduleStep :=
  set.foldl (processSimpleStep max_threads) (maybeBarrier rsteps)

/-- Lookup in the model of `sets: FxHashMap<Box<dyn ScheduleLabel>, Vec<SimpleScheduleStep>>`,
modelled as an association list keyed by labels (label identity is nominal,
modelled as `Nat`). -/
def lookupSet : List (Nat × List SimpleScheduleStep) → Nat →
    Option (List SimpleScheduleStep)
  | [], _ => none
  | (l, set) :: rest, label =>
    if l = label then some set else lookupSet rest label

/-- Model of `set.drain(..)`: the set stays in the map but becomes empty. -/
def drainSet : List (Nat × List SimpleScheduleStep) → Nat →
    List (Nat × List SimpleScheduleStep)
  | [], _ => []
  | (l, set) :: rest, label =>
    if l = label then (l, []) :: rest else (l, set) :: drainSet rest label

/-- The outer `for label in &self.order` loop of `build_with_max_threads`
(`src/schedule/mod.rs`, lines 288-331), accumulating the reversed step
list. Labels without an entry in `sets` are skipped entirely. -/
def buildLoop (max_threads : Nat) :
    List Nat → List (Nat × List SimpleScheduleStep) → List ScheduleStep →
    List ScheduleStep
  | [], _, rsteps => rsteps
  | label :: rest, sets, rsteps =>
    match lookupSet sets label with
    | some set =>
      buildLoop max_threads rest (drainSet sets label)
        (processLabel max_threads rsteps set)
    | none => buildLoop max_threads rest sets rsteps

/-- Enables creating a `Schedule` using the builder pattern
(`ScheduleBuilder` in `src/schedule/mod.rs`). -/
structure ScheduleBuilder where
  sets : List (Nat × List SimpleScheduleStep)
  order : List Nat
deriving DecidableEq

/-- Translation of `ScheduleBuilder::build_with_max_threads`
(`src/schedule/mod.rs`, lines 264-334). -/
def ScheduleBuilder.build_with_max_threads (b : ScheduleBuilder)
    (max_threads : Nat) : Schedule :=
  Schedule.mk (buildLoop max_threads b.order b.sets []).reverse

/-- Rust's `usize::MAX` on a 64-bit target. -/
def USIZE_MAX : Nat := 2 ^ 64 - 1

/-- Translation of `ScheduleBuilder::build`: `build_with_max_threads(usize::MAX)`. -/
def ScheduleBuilder.build (b : ScheduleBuilder) : Schedule :=
  b.build_with_max_threads USIZE_MAX

/-- Append a staged step to the set of `label`; translation of
`ScheduleBuilder::entry` (`src/schedule/mod.rs`, lines 227-234) followed by
the push: a fresh label gets an empty set and is appended to `order`
if not already present. -/
def pushToSet : List (Nat × List SimpleScheduleStep) → Nat →
    SimpleScheduleStep → List (Nat × List SimpleScheduleStep)
  | [], _, _ => []
  | (l, set) :: rest, label, step =>
    if l = label then (l, set ++ [step]) :: rest
    else (l, set) :: pushToSet rest label step

/-- The `self.entry(Box::new(label)).push(step)` pattern shared by
`add_system` and `add_barrier`. -/
def ScheduleBuilder.entryPush (b : ScheduleBuilder) (label : Nat)
    (step : SimpleScheduleStep) : ScheduleBuilder :=
  match lookupSet b.sets label with
  | some _ => ScheduleBuilder.mk (pushToSet b.sets label step) b.order
  | none =>
    ScheduleBuilder.mk (b.sets ++ [(label, [step])])
      (if label ∈ b.order then b.order else b.order ++ [label])

/-- Translation of `ScheduleBuilder::add_system`
(`src/schedule/mod.rs`, lines 164-177). -/
def ScheduleBuilder.add_system (b : ScheduleBuilder) (label : Nat)
    (system : SystemConfig) : ScheduleBuilder :=
  b.entryPush label
    (match system.is_exclusive, system.is_thread_local with
      | true, _ => SimpleScheduleStep.exclusiveSystem system
      | false, true => SimpleScheduleStep.localSystem system
      | false, false => SimpleScheduleStep.system system)

/-- Translation of `ScheduleBuilder::add_barrier`
(`src/schedule/mod.rs`, lines 181-185). -/
def ScheduleBuilder.add_barrier (b : ScheduleBuilder) (label : Nat) :
    ScheduleBuilder :=
  b.entryPush label SimpleScheduleStep.barrier

/-- The default builder (`impl Default for ScheduleBuilder`,
`src/schedule/mod.rs`, lines 146-160): labels `First`, `PreUpdate`,
`Update`, `PostUpdate`, `Last` are modelled as `0`..`4`; no sets yet. -/
def ScheduleBuilder.defaultBuilder : ScheduleBuilder :=
  ScheduleBuilder.mk [] [0, 1, 2, 3, 4]

/-- Translation of `ScheduleBuilder::label_idx`
(`src/schedule/mod.rs`, lines 246-248): position of the first label equal
to the argument. -/
def ScheduleBuilder.label_idx (b : ScheduleBuilder) (label : Nat) : Option Nat :=
  b.order.findIdx? fun id => id == label

/-- Translation of `ScheduleBuilder::label_entry`
(`src/schedule/mod.rs`, lines 236-244): returns the (possibly extended)
builder and the index of the label in `order`. -/
def ScheduleBuilder.label_entry (b : ScheduleBuilder) (label : Nat) :
    ScheduleBuilder × Nat :=
  match b.label_idx label with
  | some idx => (b, idx)
  | none => (ScheduleBuilder.mk b.sets (b.order ++ [label]), b.order.length)

/-- Model of `Vec::insert` on the label order: Rust panics when the index
exceeds the length, modelled as `none`. -/
def vecInsert : List Nat → Nat → Nat → Option (List Nat)
  | xs, 0, a => some (a :: xs)
  | [], _ + 1, _ => none
  | x :: xs, i + 1, a => (vecInsert xs i a).map fun r => x :: r

/-- Model of `Vec::remove` on the label order: returns the removed element
and the remaining list; Rust panics when the index is out of range,
modelled as `none`. -/
def vecRemove : List Nat → Nat → Option (Nat × List Nat)
  | [], _ => none
  | x :: xs, 0 => some (x, xs)
  | x :: xs, i + 1 => (vecRemove xs i).map fun r => (r.1, x :: r.2)

/-- Translation of `ScheduleBuilder::add_label_before`
(`src/schedule/mod.rs`, lines 194-208). -/
def ScheduleBuilder.add_label_before (b : ScheduleBuilder)
    (label before : Nat) : Option ScheduleBuilder :=
  let p := b.label_entry label
  match p.1.label_idx before with
  | none => some p.1
  | some bidx0 =>
    let bidx := if bidx0 > p.2 then bidx0 - 1 else bidx0
    match vecRemove p.1.order p.2 with
    | none => none
    | some r =>
      (vecInsert r.2 bidx r.1).map fun o => ScheduleBuilder.mk p.1.sets o

/-- Translation of `ScheduleBuilder::add_label_after`
(`src/schedule/mod.rs`, lines 211-225). Note the index adjustment
`if after_idx > idx { after_idx += 1 }`. -/
def ScheduleBuilder.add_label_after (b : ScheduleBuilder)
    (label after : Nat) : Option ScheduleBuilder :=
  let p := b.label_entry label
  match p.1.label_idx after with
  | none => some p.1
  | some aidx0 =>
    let aidx := if aidx0 > p.2 then aidx0 + 1 else aidx0
    match vecRemove p.1.order p.2 with
    | none => none
    | some r =>
      (vecInsert r.2 aidx r.1).map fun o => ScheduleBuilder.mk p.1.sets o

/-- Structural shape of a step: a code for the step kind together with the
number of member systems (`0` = parallel `Systems`, `1` = `LocalSystems`,
`2` = `ExclusiveSystems`, `3` = `Barrier`). -/
def ScheduleStep.shape : ScheduleStep → Nat × Nat
  | ScheduleStep.systems ss => (0, ss.length)
  | ScheduleStep.localSystems ss => (1, ss.length)
  | ScheduleStep.exclusiveSystems ss => (2, ss.length)
  | ScheduleStep.barrier => (3, 0)

/-- Structural shape of a schedule: the sequence of step shapes. -/
def Schedule.shape (s : Schedule) : List (Nat × Nat) :=
  s.steps.map ScheduleStep.shape

/-- Modelled from the claim wording of C3 (spec §4.5 step 3): the scan is
said to stop at the first batch that is ineligible (conflicting) or
batch-full, joining the last batch that remained eligible during the walk.
This differs from the source, which does not stop at full batches. -/
def claimedInsertIntoBatch (max_threads : Nat) (system : SystemConfig) :
    List ScheduleStep → Option (List ScheduleStep)
  | [] => none
  | ScheduleStep.systems batch :: rest =>
    if systems_conflict batch system ∨ ¬ batch.length < max_threads then
      none
    else
      match claimedInsertIntoBatch max_threads system rest with
      | some rest2 => some (ScheduleStep.systems batch :: rest2)
      | none => some (ScheduleStep.systems (batch ++ [system]) :: rest)
  | ScheduleStep.localSystems _ :: _ => none
  | ScheduleStep.exclusiveSystems _ :: _ => none
  | ScheduleStep.barrier :: _ => none

/-- The claimed build pipeline of C3: identical to `processSimpleStep`
except that parallel systems are placed with `claimedInsertIntoBatch`. -/
def claimedProcessSimpleStep (max_threads : Nat) (rsteps : List ScheduleStep) :
    SimpleScheduleStep → List ScheduleStep
  | SimpleScheduleStep.system s =>
    match claimedInsertIntoBatch max_threads s rsteps with
    | some r => r
    | none => ScheduleStep.systems [s] :: rsteps
  | SimpleScheduleStep.localSystem s =>
    match rsteps with
    | ScheduleStep.localSystems ss :: rest =>
      ScheduleStep.localSystems (ss ++ [s]) :: rest
    | _ => ScheduleStep.localSystems [s] :: rsteps
  | SimpleScheduleStep.exclusiveSystem s =>
    match rsteps with
    | ScheduleStep.exclusiveSystems ss :: rest =>
      ScheduleStep.exclusiveSystems (ss ++ [s]) :: rest
    | _ => ScheduleStep.exclusiveSystems [s] :: rsteps
  | SimpleScheduleStep.barrier => maybeBarrier rsteps

/-- The claimed build pipeline of C3, per-label loop. -/
def claimedProcessLabel (max_threads : Nat) (rsteps : List ScheduleStep)
    (set : List SimpleScheduleStep) : List ScheduleStep :=
  set.foldl (claimedProcessSimpleStep max_threads) (maybeBarrier rsteps)

/-- The claimed build pipeline of C3, outer loop. -/
def claimedBuildLoop (max_threads : Nat) :
    List Nat → List (Nat × List SimpleScheduleStep) → List ScheduleStep →
    List ScheduleStep
  | [], _, rsteps => rsteps
  | label :: rest, sets, rsteps =>
    match lookupSet sets label with
    | some set =>
      claimedBuildLoop max_threads rest (drainSet sets label)
        (claimedProcessLabel max_threads rsteps set)
    | none => claimedBuildLoop max_threads rest sets rsteps

/-- The claimed build pipeline of C3, entry point. -/
def claimedBuild (b : ScheduleBuilder) (max_threads : Nat) : Schedule :=
  Schedule.mk (claimedBuildLoop max_threads b.order b.sets []).reverse

/-- Modelled from the amended claim of C3: the prefix of open parallel
batches actually walked by the scan, i.e. the maximal leading run of
`Systems` steps (in most-recently-opened-first order) whose batches do not
conflict with the incoming system. Full batches do not end the walk. -/
def specWalkedBatches (system : SystemConfig) :
    List ScheduleStep → List (List SystemConfig)
  | ScheduleStep.systems batch :: rest =>
    if systems_conflict batch system then []
    else batch :: specWalkedBatches system rest
  | _ => []

/-- Modelled from the amended claim of C3: among the walked batches, the
index of the earliest-opened one (deepest in most-recent-first order) that
still has room, skipping full batches. -/
def specLastWithRoom (max_threads : Nat) :
    List (List SystemConfig) → Option Nat
  | [] => none
  | batch :: rest =>
    match specLastWithRoom max_threads rest with
    | some i => some (i + 1)
    | none => if batch.length < max_threads then some 0 else none

/-- Modelled from the amended claim of C3: join the batch at the given
position of the reversed step list by appending the system. -/
def specJoinBatch (system : SystemConfig) :
    List ScheduleStep → Nat → List ScheduleStep
  | ScheduleStep.systems batch :: rest, 0 =>
    ScheduleStep.systems (batch ++ [system]) :: rest
  | st :: rest, i + 1 => st :: specJoinBatch system rest i
  | steps, _ => steps

/-- Observable events of a schedule run: a `World::maintain` call, a
`SystemConfig::run_unsafe` call (parallel path), a `SystemConfig::run`
call (exclusive path, takes `&mut World`), and a
`SystemConfig::apply_deferred` call; systems are identified by `tag`. -/
inductive RunEvent
  | maintain
  | runSystem (tag : Nat)
  | runExclusive (tag : Nat)
  | applyDeferred (tag : Nat)
deriving DecidableEq

/-- Events produced by one step of `Schedule::run_generic`
(`src/schedule/mod.rs`, lines 113-143) with the sequential system runner
of `run_seq`: a `Systems` step runs every member's `run_unsafe` and then
applies every member's deferred buffer; `LocalSystems` and
`ExclusiveSystems` steps call `world.maintain()` before each member and
run it via `SystemConfig::run`; a `Barrier` calls `world.maintain()`. -/
def stepRunEvents : ScheduleStep → List RunEvent
  | ScheduleStep.systems ss =>
    (ss.map fun s => RunEvent.runSystem s.tag) ++
      (ss.map fun s => RunEvent.applyDeferred s.tag)
  | ScheduleStep.localSystems ss =>
    ss.flatMap fun s => [RunEvent.maintain, RunEvent.runExclusive s.tag]
  | ScheduleStep.exclusiveSystems ss =>
    ss.flatMap fun s => [RunEvent.maintain, RunEvent.runExclusive s.tag]
  | ScheduleStep.barrier => [RunEvent.maintain]

/-- Events of a full `Schedule::run_seq`: the steps in order followed by
the final `world.maintain()` (`src/schedule/mod.rs`, line 142). -/
def Schedule.runSeqEvents (sch : Schedule) : List RunEvent :=
  sch.steps.flatMap stepRunEvents ++ [RunEvent.maintain]

/-- Modelled from the claim wording of C4 (spec §4.5): a `LocalSystems` or
`ExclusiveSystems` step is said to first call `maintain` once, then run
each member sequentially with its deferred buffer applied as part of the
call. This differs from the source, which calls `maintain` before each
member and never applies deferred buffers on the exclusive path. -/
def claimedStepRunEvents : ScheduleStep → List RunEvent
  | ScheduleStep.systems ss =>
    (ss.map fun s => RunEvent.runSystem s.tag) ++
      (ss.map fun s => RunEvent.applyDeferred s.tag)
  | ScheduleStep.localSystems ss =>
    RunEvent.maintain ::
      (ss.flatMap fun s => [RunEvent.runExclusive s.tag, RunEvent.applyDeferred s.tag])
  | ScheduleStep.exclusiveSystems ss =>
    RunEvent.maintain ::
      (ss.flatMap fun s => [RunEvent.runExclusive s.tag, RunEvent.applyDeferred s.tag])
  | ScheduleStep.barrier => [RunEvent.maintain]

/-- The claimed run trace of C4. -/
def claimedRunSeqEvents (sch : Schedule) : List RunEvent :=
  sch.steps.flatMap claimedStepRunEvents ++ [RunEvent.maintain]

/-- Checks that every `runExclusive` event is immediately preceded by a
`maintain` event (in particular, the trace never starts with one). -/
def maintainGuarded : List RunEvent → Bool
  | [] => true
  | RunEvent.maintain :: RunEvent.runExclusive _ :: rest => maintainGuarded rest
  | RunEvent.runExclusive _ :: _ => false
  | _ :: rest => maintainGuarded rest

/-- Outcome of consuming one packed command in
`CommandQueue::apply_or_drop_queud` (`src/system/commands.rs`,
lines 159-167): with a world the command's `apply` runs, without one the
command is only dropped (destructed). -/
inductive CommandFate
  | applied
  | destructed
deriving DecidableEq

/-- Model of `CommandQueue` (`src/system/commands.rs`): the byte-packed
`Vec<MaybeUninit<u8>>` is modelled as the list of packed commands in push
order; each command's registry effect is a function on an abstract world
state `σ`. The size/vtable bookkeeping of the cursor walk is the list
structure itself. -/
structure CommandQueue (σ : Type) where
  bytes : List (σ → σ)

/-- Translation of `CommandQueue::push` (`src/system/commands.rs`,
lines 152-183): the packed command is appended at the end. -/
def CommandQueue.push {σ : Type} (q : CommandQueue σ) (c : σ → σ) :
    CommandQueue σ :=
  CommandQueue.mk (q.bytes ++ [c])

/-- The `consume_command_and_get_size` closure
(`src/system/commands.rs`, lines 160-167): read the command, apply it when
a world is present, otherwise drop it. -/
def consumeCommand {σ : Type} (world : Option σ) (c : σ → σ) :
    Option σ × CommandFate :=
  match world with
  | some w => (some (c w), CommandFate.applied)
  | none => (none, CommandFate.destructed)

/-- The cursor walk of `apply_or_drop_queud`
(`src/system/commands.rs`, lines 191-203): consume each packed command in
order, threading the optional world and recording each command's fate. -/
def consumeAll {σ : Type} : Option σ → List (σ → σ) →
    Option σ × List CommandFate
  | world, [] => (world, [])
  | world, c :: cs =>
    let r := consumeCommand world c
    let rest := consumeAll r.1 cs
    (rest.1, r.2 :: rest.2)

/-- Translation of `CommandQueue::apply_or_drop_queud`: `set_len(0)`
empties the queue, then every previously stored command is consumed in
push order. Returns the emptied queue, the resulting world (when one was
supplied) and the fate of each command. -/
def CommandQueue.apply_or_drop_queud {σ : Type} (q : CommandQueue σ)
    (world : Option σ) : CommandQueue σ × Option σ × List CommandFate :=
  (CommandQueue.mk [], consumeAll world q.bytes)

/-- The `SystemBuffer::apply` path (`src/system/commands.rs`, lines 30-34):
`apply_or_drop_queud(Some(world))`. -/
def CommandQueue.applyQueue {σ : Type} (q : CommandQueue σ) (w : σ) :
    CommandQueue σ × Option σ × List CommandFate :=
  q.apply_or_drop_queud (some w)

/-- The `Drop` path (`src/system/commands.rs`, lines 206-210):
`apply_or_drop_queud(None)`. -/
def CommandQueue.dropQueue {σ : Type} (q : CommandQueue σ) :
    CommandQueue σ × Option σ × List CommandFate :=
  q.apply_or_drop_queud none

/-- Behavioral model of `SystemConfig` for condition gating
(`src/schedule/config.rs`): the boxed conditions are read-only boolean
systems on the registry state `σ`; the wrapped system's body is its effect
on `σ` (on the parallel path the mutation happens through interior
mutability, so `run` and `run_unsafe` share the same body). -/
structure SystemConfigExec (σ : Type) where
  conditions : List (σ → Bool)
  body : σ → σ

/-- Translation of `SystemConfig::should_run`
(`src/schedule/config.rs`, lines 87-91): all conditions hold. -/
def SystemConfigExec.should_run {σ : Type} (cfg : SystemConfigExec σ)
    (registry : σ) : Bool :=
  cfg.conditions.all fun c => c registry

/-- Translation of `SystemConfig::run` (`src/schedule/config.rs`,
lines 77-84): runs the body only when `should_run`, returns whether the
system ran together with the resulting registry state. -/
def SystemConfigExec.run {σ : Type} (cfg : SystemConfigExec σ)
    (registry : σ) : Bool × σ :=
  if cfg.should_run registry then (true, cfg.body registry)
  else (false, registry)

/-- Translation of `SystemConfig::run_unsafe` (`src/schedule/config.rs`,
lines 67-74), written `run_unchecked` here: same gating as `run`. -/
def SystemConfigExec.run_unchecked {σ : Type} (cfg : SystemConfigExec σ)
    (registry : σ) : Bool × σ :=
  if cfg.should_run registry then (true, cfg.body registry)
  else (false, registry)

/-- Model of `FunctionSystem` (`src/system/function_system.rs`): `func`
runs the function on borrowed parameter state and world, `initState` is
`F::Param::init_state`, `applyState` is `F::Param::apply`; `param_state`
is `None` until the system is initialized. -/
structure FunctionSystemM (σ St : Type) where
  func : St → σ → St × σ
  initState : σ → St
  applyState : St → σ → St × σ
  param_kinds : List SystemParamKind
  param_state : Option St

/-- Translation of `IntoSystem::into_system` for functions
(`src/system/function_system.rs`, lines 75-84): `param_state` starts as
`None`. -/
def mkFunctionSystem {σ St : Type} (func : St → σ → St × σ)
    (initState : σ → St) (applyState : St → σ → St × σ)
    (param_kinds : List SystemParamKind) : FunctionSystemM σ St :=
  FunctionSystemM.mk func initState applyState param_kinds none

/-- Translation of `FunctionSystem::run_unsafe`
(`src/system/function_system.rs`, lines 105-112), written `run_unchecked`
here: `self.param_state.as_mut().expect("param_state not initialized")`
panics (modelled as `Except.error` carrying the panic message) when the
system was never initialized. -/
def FunctionSystemM.run_unchecked {σ St : Type} (fs : FunctionSystemM σ St)
    (world : σ) : Except String (FunctionSystemM σ St × σ) :=
  match fs.param_state with
  | none => Except.error "param_state not initialized"
  | some st =>
    let r := fs.func st world
    Except.ok (FunctionSystemM.mk fs.func fs.initState fs.applyState
      fs.param_kinds (some r.1), r.2)

/-- Translation of `FunctionSystem::apply_deferred`
(`src/system/function_system.rs`, lines 114-120): same `expect` guard. -/
def FunctionSystemM.apply_deferred {σ St : Type} (fs : FunctionSystemM σ St)
    (world : σ) : Except String (FunctionSystemM σ St × σ) :=
  match fs.param_state with
  | none => Except.error "param_state not initialized"
  | some st =>
    let r := fs.applyState st world
    Except.ok (FunctionSystemM.mk fs.func fs.initState fs.applyState
      fs.param_kinds (some r.1), r.2)

/-- Translation of `FunctionSystem::initialize`
(`src/system/function_system.rs`, lines 122-125), written `initSys` here:
sets `param_state` to a fresh state. -/
def FunctionSystemM.initSys {σ St : Type} (fs : FunctionSystemM σ St)
    (world : σ) : FunctionSystemM σ St :=
  FunctionSystemM.mk fs.func fs.initState fs.applyState fs.param_kinds
    (some (fs.initState world))

/-- Iterated `run_unchecked`: run the system `n` times, threading the
world through. -/
def FunctionSystemM.runN {σ St : Type} :
    FunctionSystemM σ St → σ → Nat → Except String (FunctionSystemM σ St × σ)
  | fs, world, 0 => Except.ok (fs, world)
  | fs, world, n + 1 =>
    match fs.run_unchecked world with
    | Except.error e => Except.error e
    | Except.ok r => r.1.runN r.2 n

/-- Two member systems of a batch never conflict: every kind of the first
against every kind of the second returns `false` under `conflicts_with`
(both orientations). -/
def nonConflictingPair (a b : SystemConfig) : Prop :=
  ∀ p1 ∈ a.param_kinds, ∀ p2 ∈ b.param_kinds,
    p1.conflicts_with p2 = false ∧ p2.conflicts_with p1 = false

/-- A staged step is tagged with its label: parallel systems carry the
label they were added under in `tag`. -/
def simpleStepTagOk (label : Nat) : SimpleScheduleStep → Bool
  | SimpleScheduleStep.system s => s.tag == label
  | _ => true

/-- A step is conflict-free: if it is a parallel `Systems` step, its
members are pairwise non-conflicting. -/
def batchOk (st : ScheduleStep) : Prop :=
  ∀ ss, st = ScheduleStep.systems ss → ss.Pairwise nonConflictingPair

/-- Every step of a (reversed or not) step list is conflict-free. -/
def stepsOk (steps : List ScheduleStep) : Prop :=
  ∀ st ∈ steps, batchOk st

/-- A step is label-homogeneous: if it is a parallel `Systems` step, all
its members carry the same tag. -/
def batchTagHomog (st : ScheduleStep) : Prop :=
  ∀ ss, st = ScheduleStep.systems ss → ∀ a ∈ ss, ∀ c ∈ ss, a.tag = c.tag

/-- Every step of a step list is label-homogeneous. -/
def stepsTagHomog (steps : List ScheduleStep) : Prop :=
  ∀ st ∈ steps, batchTagHomog st

/-- The leading run of `Systems` steps of a reversed step list (the open
parallel batches reachable by the backward scan) is entirely tagged with
the current label. -/
def leadTag (label : Nat) : List ScheduleStep → Prop
  | ScheduleStep.systems ss :: rest =>
    (∀ a ∈ ss, a.tag = label) ∧ leadTag label rest
  | _ => True

/-- Concrete input for the C3 counterexample: writes component 0. -/
def scanSysA : SystemConfig := SystemConfig.mk false false [SystemParamKind.compMut 0] 1

/-- Concrete input for the C3 counterexample: reads component 0. -/
def scanSysB : SystemConfig := SystemConfig.mk false false [SystemParamKind.comp 0] 2

/-- Concrete input for the C3 counterexample: reads component 0. -/
def scanSysC : SystemConfig := SystemConfig.mk false false [SystemParamKind.comp 0] 3

/-- Concrete input for the C3 counterexample: writes component 1. -/
def scanSysD : SystemConfig := SystemConfig.mk false false [SystemParamKind.compMut 1] 4

/-- Concrete builder for the C3 counterexample: four parallel-eligible
systems added under the `Update` label. With `max_threads = 2` the first
open batch `[scanSysA]` stays at one member while `[scanSysB, scanSysC]`
fills up, so placing `scanSysD` walks past the full batch. -/
def scanBuilder : ScheduleBuilder :=
  ((((ScheduleBuilder.defaultBuilder.add_system 2 scanSysA).add_system 2
    scanSysB).add_system 2 scanSysC).add_system 2 scanSysD)

/-- Concrete schedule for the C4 counterexample: one `LocalSystems` step
with two members. -/
def localTraceSchedule : Schedule :=
  Schedule.mk [ScheduleStep.localSystems
    [SystemConfig.mk false true [] 1, SystemConfig.mk false true [] 2]]

/-- Concrete builder for the C2 witness: two non-conflicting systems under
the `Update` label. -/
def witnessBuilderC2 : ScheduleBuilder :=
  (ScheduleBuilder.defaultBuilder.add_system 2
    (SystemConfig.mk false false [SystemParamKind.compMut 0] 1)).add_system 2
    (SystemConfig.mk false false [SystemParamKind.res 3] 2)

/-- Concrete builder for the C8 witness (one internal representation of
the label-to-set map). -/
def witnessBuilder8a : ScheduleBuilder :=
  ScheduleBuilder.mk
    [(2, [SimpleScheduleStep.system (SystemConfig.mk false false [SystemParamKind.compMut 0] 1)]),
      (1, [SimpleScheduleStep.system (SystemConfig.mk false false [SystemParamKind.comp 5] 2)])]
    [0, 1, 2, 3, 4]

/-- Concrete builder for the C8 witness (the same map stored in the
opposite entry order, as a hash map is free to do). -/
def witnessBuilder8b : ScheduleBuilder :=
  ScheduleBuilder.mk
    [(1, [SimpleScheduleStep.system (SystemConfig.mk false false [SystemParamKind.comp 5] 2)]),
      (2, [SimpleScheduleStep.system (SystemConfig.mk false false [SystemParamKind.compMut 0] 1)])]
    [0, 1, 2, 3, 4]

/-- Concrete builder for the C10 witness: two parallel systems added under
label `2`, tags recording the label. -/
def witnessBuilder10 : ScheduleBuilder :=
  ScheduleBuilder.mk
    [(2, [SimpleScheduleStep.system (SystemConfig.mk false false [SystemParamKind.comp 0] 2),
      SimpleScheduleStep.system (SystemConfig.mk false false [SystemParamKind.comp 1] 2)])]
    [2]

/-- Helper: boolean equality on `Nat` is commutative. -/
theorem nat_beq_comm (a b : Nat) : (a == b) = (b == a) := by
  rw [Bool.eq_iff_iff]
  simp only [beq_iff_eq]
  exact eq_comm

/-- Helper: `conflicts_with` is symmetric. -/
theorem conflicts_with_comm (a b : SystemParamKind) :
    a.conflicts_with b = b.conflicts_with a := by
  cases a <;> cases b <;>
    simp only [SystemParamKind.conflicts_with] <;>
    first
      | rfl
      | exact nat_beq_comm _ _

/-- C1: the conflict predicate `SystemParamKind::conflicts_with` is
symmetric and total (it is a total Lean function); it returns `true`
exactly when the two kinds name the same component type (via
`Comp`/`CompMut`) or the same resource type (via `Res`/`ResMut`) and at
least one of the two accesses is exclusive; and the `Entities` and `State`
kinds never conflict with anything in either position. Same-type
shared/shared and distinct-type pairs fall outside the characterization,
hence return `false`. -/
theorem conflicts_with_symm_total_spec (a b : SystemParamKind) :
    (a.conflicts_with b = b.conflicts_with a) ∧
    (a.conflicts_with b = true ↔
      ((a.compType = b.compType ∧ a.compType ≠ none) ∨
        (a.resType = b.resType ∧ a.resType ≠ none)) ∧
      (a.isExclusiveAccess = true ∨ b.isExclusiveAccess = true)) ∧
    (SystemParamKind.entities.conflicts_with b = false) ∧
    (a.conflicts_with SystemParamKind.entities = false) ∧
    (∀ t : TypeData, (SystemParamKind.state t).conflicts_with b = false ∧
      a.conflicts_with (SystemParamKind.state t) = false) := by
  refine ⟨conflicts_with_comm a b, ?_, ?_, ?_, ?_⟩ <;>
    cases a <;> cases b <;>
      simp [SystemParamKind.conflicts_with, SystemParamKind.compType,
        SystemParamKind.resType, SystemParamKind.isExclusiveAccess]

/-- Helper: consuming all commands with a world applies each in order. -/
theorem consumeAll_some {σ : Type} :
    ∀ (cs : List (σ → σ)) (w : σ),
      consumeAll (some w) cs =
        (some (cs.foldl (fun s c => c s) w),
          List.replicate cs.length CommandFate.applied)
  | [], _ => rfl
  | c :: cs, w => by
    simp [consumeAll, consumeCommand, consumeAll_some cs (c w),
      List.replicate_succ]

/-- Helper: consuming all commands without a world destructs each. -/
theorem consumeAll_none {σ : Type} :
    ∀ cs : List (σ → σ),
      consumeAll (none : Option σ) cs =
        (none, List.replicate cs.length CommandFate.destructed)
  | [] => rfl
  | c :: cs => by
    simp [consumeAll, consumeCommand, consumeAll_none cs,
      List.replicate_succ]

/-- C5: every command pushed into a `CommandQueue` is consumed exactly
once. Applying the queue invokes each pending command against the world in
push (FIFO) order — the resulting world is the left fold of the commands —
records one `applied` fate per command, and leaves the queue empty.
Dropping a never-applied queue also empties it and destructs each pending
command (one `destructed` fate per command) without invoking any
world-mutation effect (no world is produced). `push` appends at the end of
the packed buffer. -/
theorem command_queue_fifo_spec {σ : Type} (q : CommandQueue σ) (w : σ)
    (c : σ → σ) :
    ((q.applyQueue w).1.bytes = [] ∧
      (q.applyQueue w).2.1 = some (q.bytes.foldl (fun s c => c s) w) ∧
      (q.applyQueue w).2.2 =
        List.replicate q.bytes.length CommandFate.applied) ∧
    (q.dropQueue.1.bytes = [] ∧
      q.dropQueue.2.1 = none ∧
      q.dropQueue.2.2 =
        List.replicate q.bytes.length CommandFate.destructed) ∧
    (q.push c).bytes = q.bytes ++ [c] := by
  refine ⟨⟨rfl, ?_, ?_⟩, ⟨rfl, ?_, ?_⟩, rfl⟩ <;>
    simp [CommandQueue.applyQueue, CommandQueue.dropQueue,
      CommandQueue.apply_or_drop_queud, consumeAll_some, consumeAll_none]

/-- C6: `should_run` is the conjunction of all attached conditions
(evaluated on the read-only registry state), and both `run` and
`run_unsafe` (modelled as `run_unchecked`) gate the body on `should_run`:
the body executes exactly when every condition returns `true`, and the
returned boolean reports whether the system ran. -/
theorem system_config_condition_gating {σ : Type} (cfg : SystemConfigExec σ)
    (registry : σ) :
    (cfg.should_run registry = true ↔
      ∀ c ∈ cfg.conditions, c registry = true) ∧
    cfg.run registry =
      (cfg.should_run registry,
        if cfg.should_run registry then cfg.body registry else registry) ∧
    cfg.run_unchecked registry =
      (cfg.should_run registry,
        if cfg.should_run registry then cfg.body registry else registry) := by
  refine ⟨?_, ?_, ?_⟩
  · simp [SystemConfigExec.should_run, List.all_eq_true]
  · by_cases h : cfg.should_run registry <;>
      simp [SystemConfigExec.run, h]
  · by_cases h : cfg.should_run registry <;>
      simp [SystemConfigExec.run_unchecked, h]

/-- Helper: once `param_state` is populated, iterated runs never fail. -/
theorem runN_isOk {σ St : Type} :
    ∀ (n : Nat) (fs : FunctionSystemM σ St) (w : σ) (st : St),
      fs.param_state = some st → (fs.runN w n).isOk = true
  | 0, _, _, _, _ => rfl
  | n + 1, fs, w, st, h => by
    simp only [FunctionSystemM.runN, FunctionSystemM.run_unchecked, h]
    exact runN_isOk n _ _ _ rfl

/-- C9: running a fresh `FunctionSystem` (or applying its deferred state)
before `initialize` panics with the message of the
`expect("param_state not initialized")` guard, while after `initialize`
has run once, `run_unsafe` may be invoked any number of times without
re-initializing and never fails for lack of parameter state. -/
theorem function_system_init_guard {σ St : Type} (func : St → σ → St × σ)
    (initState : σ → St) (applyState : St → σ → St × σ)
    (param_kinds : List SystemParamKind) :
    (∀ w : σ,
      (mkFunctionSystem func initState applyState param_kinds).run_unchecked
          w = Except.error "param_state not initialized" ∧
      (mkFunctionSystem func initState applyState param_kinds).apply_deferred
          w = Except.error "param_state not initialized") ∧
    (∀ (fs : FunctionSystemM σ St) (w0 w : σ) (n : Nat),
      ((fs.initSys w0).runN w n).isOk = true) := by
  refine ⟨fun w => ⟨rfl, rfl⟩, fun fs w0 w n => ?_⟩
  exact runN_isOk n (fs.initSys w0) w (fs.initState w0) rfl

/-- C7 (code bug): `add_label_after` misplaces the label. Adding a fresh
label `5` after the first default label `0` produces the order
`[5, 0, 1, 2, 3, 4]` — the label lands immediately BEFORE the reference
label instead of immediately after it, contradicting the function's own
documentation ("Add a new label after `after`"). Moving an existing label
after the last label even panics (`Vec::insert` with an out-of-range
index, modelled by `none`). -/
theorem add_label_after_bug :
    ((ScheduleBuilder.defaultBuilder.add_label_after 5 0).map
        ScheduleBuilder.order = some [5, 0, 1, 2, 3, 4]) ∧
    ScheduleBuilder.defaultBuilder.add_label_after 0 4 = none := by
  decide

/-- C3 counterexample: under the claimed scan semantics (stop at the first
ineligible or batch-full batch), building `scanBuilder` with
`max_threads = 2` would yield three parallel steps with member counts
`1, 2, 1` — the full batch `[scanSysB, scanSysC]` would stop the scan and
`scanSysD` would open a new batch. The source instead walks past the full
batch and places `scanSysD` into the earliest-opened batch `[scanSysA]`,
yielding two parallel steps with two members each. -/
theorem parallel_scan_claim_counterexample :
    (scanBuilder.build_with_max_threads 2).shape = [(0, 2), (0, 2)] ∧
    (claimedBuild scanBuilder 2).shape = [(0, 1), (0, 2), (0, 1)] ∧
    scanBuilder.build_with_max_threads 2 ≠ claimedBuild scanBuilder 2 := by
  decide

/-- C4 counterexample: for a single `LocalSystems` step with two members,
the source trace is `maintain, run 1, maintain, run 2, maintain` (one
`maintain` before EACH member and no deferred application on the exclusive
path), while the claimed trace is
`maintain, run 1, apply_deferred 1, run 2, apply_deferred 2, maintain`
(one `maintain` per step and each member's deferred buffer applied as part
of its call). The two traces differ. -/
theorem run_step_trace_claim_counterexample :
    localTraceSchedule.runSeqEvents =
      [RunEvent.maintain, RunEvent.runExclusive 1, RunEvent.maintain,
        RunEvent.runExclusive 2, RunEvent.maintain] ∧
    claimedRunSeqEvents localTraceSchedule =
      [RunEvent.maintain, RunEvent.runExclusive 1, RunEvent.applyDeferred 1,
        RunEvent.runExclusive 2, RunEvent.applyDeferred 2,
        RunEvent.maintain] ∧
    localTraceSchedule.runSeqEvents ≠ claimedRunSeqEvents localTraceSchedule := by
  decide

/-- Helper: the placement scan equals its two-phase description: compute
the walked prefix of non-conflicting open batches, pick the deepest one
with room, and append the system there. -/
theorem insertIntoBatch_eq_spec (max_threads : Nat) (s : SystemConfig) :
    ∀ rsteps : List ScheduleStep,
      insertIntoBatch max_threads s rsteps =
        (specLastWithRoom max_threads (specWalkedBatches s rsteps)).map
          (specJoinBatch s rsteps)
  | [] => rfl
  | ScheduleStep.systems batch :: rest => by
    by_cases hc : systems_conflict batch s
    · simp [insertIntoBatch, specWalkedBatches, hc, specLastWithRoom]
    · have ih := insertIntoBatch_eq_spec max_threads s rest
      simp only [insertIntoBatch, hc, Bool.false_eq_true, if_false,
        specWalkedBatches, ih]
      cases h : specLastWithRoom max_threads (specWalkedBatches s rest) with
      | some i => simp [specLastWithRoom, h, specJoinBatch]
      | none =>
        by_cases hr : batch.length < max_threads <;>
          simp [specLastWithRoom, h, hr, specJoinBatch]
  | ScheduleStep.localSystems _ :: _ => rfl
  | ScheduleStep.exclusiveSystems _ :: _ => rfl
  | ScheduleStep.barrier :: _ => rfl

/-- C3 (amended): when `build_with_max_threads` places a parallel-eligible
system, the backward scan over the reversed open step list walks while the
batches are parallel `Systems` batches not conflicting with the system —
a full batch does NOT stop the walk, it is merely skipped — and the system
joins the earliest-opened batch with room among the walked batches
(`specLastWithRoom` of `specWalkedBatches`); when no walked batch has
room, a new single-member parallel batch is opened. -/
theorem parallel_scan_amended (max_threads : Nat) (s : SystemConfig)
    (rsteps : List ScheduleStep) :
    processSimpleStep max_threads rsteps (SimpleScheduleStep.system s) =
      match specLastWithRoom max_threads (specWalkedBatches s rsteps) with
      | some i => specJoinBatch s rsteps i
      | none => ScheduleStep.systems [s] :: rsteps := by
  simp only [processSimpleStep, insertIntoBatch_eq_spec]
  cases specLastWithRoom max_threads (specWalkedBatches s rsteps) <;> rfl

/-- Helper: a non-`runExclusive` event can be prepended to a guarded
trace. -/
theorem guarded_cons (e : RunEvent) (B : List RunEvent)
    (he : ∀ t, e ≠ RunEvent.runExclusive t)
    (hB : maintainGuarded B = true) : maintainGuarded (e :: B) = true := by
  cases e with
  | runExclusive t => exact absurd rfl (he t)
  | maintain =>
    cases B with
    | nil => rfl
    | cons b B' =>
      cases b with
      | runExclusive t => simp [maintainGuarded] at hB
      | maintain => simpa [maintainGuarded] using hB
      | runSystem t => simpa [maintainGuarded] using hB
      | applyDeferred t => simpa [maintainGuarded] using hB
  | runSystem t => simpa [maintainGuarded] using hB
  | applyDeferred t => simpa [maintainGuarded] using hB

/-- Helper: guardedness is closed under concatenation. -/
theorem maintainGuarded_append :
    ∀ (A B : List RunEvent), maintainGuarded A = true →
      maintainGuarded B = true → maintainGuarded (A ++ B) = true
  | [], B, _, hB => hB
  | RunEvent.maintain :: RunEvent.runExclusive t :: A', B, hA, hB => by
    have h' : maintainGuarded A' = true := hA
    simpa [maintainGuarded] using maintainGuarded_append A' B h' hB
  | RunEvent.maintain :: RunEvent.maintain :: A', B, hA, hB => by
    have h' : maintainGuarded (RunEvent.maintain :: A') = true := hA
    exact guarded_cons _ _ (fun t h => by cases h)
      (maintainGuarded_append (RunEvent.maintain :: A') B h' hB)
  | RunEvent.maintain :: RunEvent.runSystem t :: A', B, hA, hB => by
    have h' : maintainGuarded (RunEvent.runSystem t :: A') = true := hA
    exact guarded_cons _ _ (fun t h => by cases h)
      (maintainGuarded_append (RunEvent.runSystem t :: A') B h' hB)
  | RunEvent.maintain :: RunEvent.applyDeferred t :: A', B, hA, hB => by
    have h' : maintainGuarded (RunEvent.applyDeferred t :: A') = true := hA
    exact guarded_cons _ _ (fun t h => by cases h)
      (maintainGuarded_append (RunEvent.applyDeferred t :: A') B h' hB)
  | [RunEvent.maintain], B, hA, hB => by
    exact guarded_cons _ _ (fun t h => by cases h) hB
  | RunEvent.runExclusive t :: A', B, hA, hB => by
    simp [maintainGuarded] at hA
  | RunEvent.runSystem t :: A', B, hA, hB => by
    have h' : maintainGuarded A' = true := hA
    exact guarded_cons _ _ (fun t h => by cases h)
      (maintainGuarded_append A' B h' hB)
  | RunEvent.applyDeferred t :: A', B, hA, hB => by
    have h' : maintainGuarded A' = true := hA
    exact guarded_cons _ _ (fun t h => by cases h)
      (maintainGuarded_append A' B h' hB)

/-- Helper: the per-member `maintain`/`run` pairs of the exclusive path
form a guarded trace. -/
theorem guarded_pairs :
    ∀ ss : List SystemConfig,
      maintainGuarded (ss.flatMap fun s =>
        [RunEvent.maintain, RunEvent.runExclusive s.tag]) = true
  | [] => rfl
  | s :: ss => by simpa [maintainGuarded] using guarded_pairs ss

/-- Helper: a trace without `runExclusive` events is guarded. -/
theorem guarded_no_rx :
    ∀ P : List RunEvent, (∀ e ∈ P, ∀ t, e ≠ RunEvent.runExclusive t) →
      maintainGuarded P = true
  | [], _ => rfl
  | e :: P, h =>
    guarded_cons e P (h e (List.mem_cons_self e P))
      (guarded_no_rx P fun e' he' => h e' (List.mem_cons_of_mem e he'))

/-- Helper: every single step's trace is guarded. -/
theorem guarded_step (st : ScheduleStep) :
    maintainGuarded (stepRunEvents st) = true := by
  cases st with
  | systems ss =>
    refine guarded_no_rx _ ?_
    intro e he t
    rcases List.mem_append.mp he with h | h <;>
      · rcases List.mem_map.mp h with ⟨s, _, rfl⟩
        intro hh
        cases hh
  | localSystems ss => exact guarded_pairs ss
  | exclusiveSystems ss => exact guarded_pairs ss
  | barrier => rfl

/-- Helper: the full sequential run trace is guarded. -/
theorem runSeq_guarded :
    ∀ steps : List ScheduleStep,
      maintainGuarded (steps.flatMap stepRunEvents ++ [RunEvent.maintain]) = true
  | [] => rfl
  | st :: rest => by
    rw [List.flatMap_cons, List.append_assoc]
    exact maintainGuarded_append _ _ (guarded_step st) (runSeq_guarded rest)

/-- C4 (amended): during a sequential schedule run, `LocalSystems` and
`ExclusiveSystems` steps call `World::maintain` immediately before EACH
member (hence at least once before the first) and run each member strictly
sequentially through the exclusive run path (`SystemConfig::run`); the
exclusive path does not itself apply the member's deferred buffer (no
`applyDeferred` events arise from these steps). A `Barrier` step calls
`maintain` and executes no system. In the full trace every exclusive run
is immediately preceded by a `maintain`, and the final event of every run
is the closing `maintain`. -/
theorem run_step_trace_amended (sch : Schedule) :
    stepRunEvents ScheduleStep.barrier = [RunEvent.maintain] ∧
    (∀ ss, stepRunEvents (ScheduleStep.localSystems ss) =
      ss.flatMap fun s => [RunEvent.maintain, RunEvent.runExclusive s.tag]) ∧
    (∀ ss, stepRunEvents (ScheduleStep.exclusiveSystems ss) =
      ss.flatMap fun s => [RunEvent.maintain, RunEvent.runExclusive s.tag]) ∧
    maintainGuarded sch.runSeqEvents = true ∧
    sch.runSeqEvents.getLast? = some RunEvent.maintain := by
  refine ⟨rfl, fun ss => rfl, fun ss => rfl, runSeq_guarded sch.steps, ?_⟩
  simp [Schedule.runSeqEvents, List.getLast?_concat]

/-- Helper: draining a label empties exactly that label's set. -/
theorem lookupSet_drainSet :
    ∀ (sets : List (Nat × List SimpleScheduleStep)) (l l' : Nat),
      lookupSet (drainSet sets l) l' =
        if l' = l then (lookupSet sets l).map (fun _ => ([] : List SimpleScheduleStep))
        else lookupSet sets l'
  | [], l, l' => by simp [drainSet, lookupSet]
  | (k, set) :: rest, l, l' => by
    have ih := lookupSet_drainSet rest l l'
    by_cases hk : k = l
    · subst hk
      by_cases h' : l' = k
      · subst h'
        simp [drainSet, lookupSet]
      · have h'' : ¬ k = l' := fun hh => h' (Eq.symm hh)
        simp [drainSet, lookupSet, h', h'']
    · by_cases h' : l' = l
      · subst h'
        have hk' : ¬ k = l' := hk
        simp [drainSet, lookupSet, hk', ih]
      · by_cases hkl : k = l' <;> simp [drainSet, lookupSet, hk, hkl, ih, h']

/-- Helper: the build loop only accesses the label map through lookups
along `order`, so extensionally equal maps build identical step lists. -/
theorem buildLoop_congr (max_threads : Nat) :
    ∀ (order : List Nat) (sets1 sets2 : List (Nat × List SimpleScheduleStep))
      (rsteps : List ScheduleStep),
      (∀ l, lookupSet sets1 l = lookupSet sets2 l) →
      buildLoop max_threads order sets1 rsteps =
        buildLoop max_threads order sets2 rsteps
  | [], _, _, _, _ => rfl
  | label :: rest, sets1, sets2, rsteps, h => by
    simp only [buildLoop, h label]
    cases hl : lookupSet sets2 label with
    | none => exact buildLoop_congr max_threads rest sets1 sets2 rsteps h
    | some set =>
      refine buildLoop_congr max_threads rest _ _ _ ?_
      intro l'
      rw [lookupSet_drainSet, lookupSet_drainSet, h label]
      by_cases h' : l' = label <;> simp [h', h l']

/-- C8: schedule construction is structure-deterministic and idempotent:
two builders holding the same ordered label list and extensionally equal
label-to-set maps (as a hash map reordered by its iteration order would
be) build schedules with identical step partitions - same sequence of step
kinds with the same member counts. In particular, building twice from the
same ordered list of `(label, system)` additions with the same
`max_threads` yields structurally identical step partitions. -/
theorem build_structure_deterministic (b1 b2 : ScheduleBuilder)
    (max_threads : Nat) (horder : b1.order = b2.order)
    (hsets : ∀ l, lookupSet b1.sets l = lookupSet b2.sets l) :
    (b1.build_with_max_threads max_threads).shape =
      (b2.build_with_max_threads max_threads).shape := by
  unfold ScheduleBuilder.build_with_max_threads
  rw [horder, buildLoop_congr max_threads b2.order b1.sets b2.sets [] hsets]

/-- Witness for C8 at two concrete builders whose maps differ only in
entry order. -/
theorem build_structure_deterministic_witness :
    (witnessBuilder8a.build_with_max_threads 3).shape =
      (witnessBuilder8b.build_with_max_threads 3).shape :=
  build_structure_deterministic witnessBuilder8a witnessBuilder8b 3 rfl
    (by
      intro l
      match l with
      | 0 => rfl
      | 1 => rfl
      | 2 => rfl
      | n + 3 => rfl)

/-- Helper: a batch that passes the `system_conflict` test is pairwise
non-conflicting with the incoming system. -/
theorem systems_conflict_false_pairs (batch : List SystemConfig)
    (s : SystemConfig) (h : systems_conflict batch s = false) :
    ∀ a ∈ batch, nonConflictingPair a s := by
  intro a ha p1 hp1 p2 hp2
  unfold systems_conflict at h
  rw [List.any_eq_false] at h
  have hmem : p1 ∈ batch.flatMap fun c => c.param_kinds :=
    List.mem_flatMap.mpr ⟨a, ha, hp1⟩
  have h2 := h p1 hmem
  rw [Bool.not_eq_true, List.any_eq_false] at h2
  have h3 := h2 p2 hp2
  rw [Bool.not_eq_true] at h3
  exact ⟨h3, by rw [conflicts_with_comm]; exact h3⟩

/-- Helper: a successful placement decomposes the reversed step list into
a walked prefix of non-conflicting parallel batches, the chosen batch
(non-conflicting and with room) extended by the system, and an untouched
remainder. -/
theorem insertIntoBatch_some_decomp (max_threads : Nat) (s : SystemConfig) :
    ∀ (rsteps r : List ScheduleStep),
      insertIntoBatch max_threads s rsteps = some r →
      ∃ pre batch post,
        rsteps = pre ++ ScheduleStep.systems batch :: post ∧
        r = pre ++ ScheduleStep.systems (batch ++ [s]) :: post ∧
        systems_conflict batch s = false ∧
        batch.length < max_threads ∧
        ∀ st ∈ pre, ∃ b2, st = ScheduleStep.systems b2 ∧
          systems_conflict b2 s = false
  | [], r, h => by simp [insertIntoBatch] at h
  | ScheduleStep.systems batch :: rest, r, h => by
    rw [insertIntoBatch] at h
    by_cases hc : systems_conflict batch s
    · simp [hc] at h
    · rw [if_neg (by simp [hc])] at h
      cases hrec : insertIntoBatch max_threads s rest with
      | some rest2 =>
        rw [hrec] at h
        cases h
        obtain ⟨pre, b2, post, he1, he2, he3, he4, he5⟩ :=
          insertIntoBatch_some_decomp max_threads s rest rest2 hrec
        refine ⟨ScheduleStep.systems batch :: pre, b2, post, ?_, ?_, he3, he4, ?_⟩
        · rw [he1]; rfl
        · rw [he2]; rfl
        · intro st hst
          rcases List.mem_cons.mp hst with rfl | hst'
          · exact ⟨batch, rfl, by simpa using hc⟩
          · exact he5 st hst'
      | none =>
        rw [hrec] at h
        by_cases hr : batch.length < max_threads
        · rw [if_pos hr] at h
          cases h
          exact ⟨[], batch, rest, rfl, rfl, by simpa using hc, hr,
            by intro st hst; cases hst⟩
        · simp [hr] at h
  | ScheduleStep.localSystems ss :: rest, r, h => by simp [insertIntoBatch] at h
  | ScheduleStep.exclusiveSystems ss :: rest, r, h => by simp [insertIntoBatch] at h
  | ScheduleStep.barrier :: rest, r, h => by simp [insertIntoBatch] at h

/-- Helper: a `LocalSystems` step is trivially conflict-free. -/
theorem batchOk_nonSystems_local (ss : List SystemConfig) :
    batchOk (ScheduleStep.localSystems ss) := by
  intro ss' hss'
  cases hss'

/-- Helper: an `ExclusiveSystems` step is trivially conflict-free. -/
theorem batchOk_nonSystems_excl (ss : List SystemConfig) :
    batchOk (ScheduleStep.exclusiveSystems ss) := by
  intro ss' hss'
  cases hss'

/-- Helper: a `Barrier` step is trivially conflict-free. -/
theorem batchOk_barrier : batchOk ScheduleStep.barrier := by
  intro ss' hss'
  cases hss'

/-- Helper: pushing a barrier preserves conflict-freedom. -/
theorem stepsOk_maybeBarrier (rsteps : List ScheduleStep) (h : stepsOk rsteps) :
    stepsOk (maybeBarrier rsteps) := by
  cases rsteps with
  | nil => exact h
  | cons st rest =>
    cases st with
    | systems ss =>
      simp only [maybeBarrier]
      intro st' hst'
      rcases List.mem_cons.mp hst' with rfl | h2
      · exact batchOk_barrier
      · exact h st' h2
    | localSystems ss => exact h
    | exclusiveSystems ss => exact h
    | barrier => exact h

/-- Helper: each build iteration preserves conflict-freedom of every
parallel batch. -/
theorem stepsOk_processSimpleStep (max_threads : Nat)
    (rsteps : List ScheduleStep) (st : SimpleScheduleStep)
    (h : stepsOk rsteps) :
    stepsOk (processSimpleStep max_threads rsteps st) := by
  cases st with
  | system s =>
    simp only [processSimpleStep]
    cases hins : insertIntoBatch max_threads s rsteps with
    | none =>
      intro st' hst'
      rcases List.mem_cons.mp hst' with rfl | h2
      · intro ss hss
        cases hss
        exact List.pairwise_singleton _ _
      · exact h st' h2
    | some r =>
      obtain ⟨pre, batch, post, he1, he2, he3, he4, he5⟩ :=
        insertIntoBatch_some_decomp max_threads s rsteps r hins
      subst he2
      intro st' hst'
      rcases List.mem_append.mp hst' with hpre | hrest
      · exact h st' (he1 ▸ List.mem_append_left _ hpre)
      · rcases List.mem_cons.mp hrest with rfl | hpost
        · intro ss hss
          cases hss
          have hold : batch.Pairwise nonConflictingPair := by
            have hb := h (ScheduleStep.systems batch)
              (he1 ▸ List.mem_append_right _ (List.mem_cons_self _ _))
            exact hb batch rfl
          have hpairs := systems_conflict_false_pairs batch s he3
          rw [List.pairwise_append]
          refine ⟨hold, List.pairwise_singleton _ _, ?_⟩
          intro a ha x hx
          rcases List.mem_singleton.mp hx with rfl
          exact hpairs a ha
        · exact h st'
            (he1 ▸ List.mem_append_right _ (List.mem_cons_of_mem _ hpost))
  | localSystem s =>
    cases rsteps with
    | nil =>
      intro st' hst'
      rcases List.mem_cons.mp hst' with rfl | h2
      · exact batchOk_nonSystems_local _
      · cases h2
    | cons st0 rest =>
      cases st0 with
      | localSystems ss =>
        intro st' hst'
        rcases List.mem_cons.mp hst' with rfl | h2
        · exact batchOk_nonSystems_local _
        · exact h st' (List.mem_cons_of_mem _ h2)
      | systems ss =>
        intro st' hst'
        rcases List.mem_cons.mp hst' with rfl | h2
        · exact batchOk_nonSystems_local _
        · exact h st' h2
      | exclusiveSystems ss =>
        intro st' hst'
        rcases List.mem_cons.mp hst' with rfl | h2
        · exact batchOk_nonSystems_local _
        · exact h st' h2
      | barrier =>
        intro st' hst'
        rcases List.mem_cons.mp hst' with rfl | h2
        · exact batchOk_nonSystems_local _
        · exact h st' h2
  | exclusiveSystem s =>
    cases rsteps with
    | nil =>
      intro st' hst'
      rcases List.mem_cons.mp hst' with rfl | h2
      · exact batchOk_nonSystems_excl _
      · cases h2
    | cons st0 rest =>
      cases st0 with
      | exclusiveSystems ss =>
        intro st' hst'
        rcases List.mem_cons.mp hst' with rfl | h2
        · exact batchOk_nonSystems_excl _
        · exact h st' (List.mem_cons_of_mem _ h2)
      | systems ss =>
        intro st' hst'
        rcases List.mem_cons.mp hst' with rfl | h2
        · exact batchOk_nonSystems_excl _
        · exact h st' h2
      | localSystems ss =>
        intro st' hst'
        rcases List.mem_cons.mp hst' with rfl | h2
        · exact batchOk_nonSystems_excl _
        · exact h st' h2
      | barrier =>
        intro st' hst'
        rcases List.mem_cons.mp hst' with rfl | h2
        · exact batchOk_nonSystems_excl _
        · exact h st' h2
  | barrier => exact stepsOk_maybeBarrier rsteps h

/-- Helper: the inner set fold preserves conflict-freedom. -/
theorem stepsOk_foldl (max_threads : Nat) :
    ∀ (set : List SimpleScheduleStep) (rsteps : List ScheduleStep),
      stepsOk rsteps →
      stepsOk (set.foldl (processSimpleStep max_threads) rsteps)
  | [], _, h => h
  | st :: set, rsteps, h =>
    stepsOk_foldl max_threads set _
      (stepsOk_processSimpleStep max_threads rsteps st h)

/-- Helper: the outer label loop preserves conflict-freedom. -/
theorem stepsOk_buildLoop (max_threads : Nat) :
    ∀ (order : List Nat) (sets : List (Nat × List SimpleScheduleStep))
      (rsteps : List ScheduleStep),
      stepsOk rsteps → stepsOk (buildLoop max_threads order sets rsteps)
  | [], _, _, h => h
  | label :: rest, sets, rsteps, h => by
    simp only [buildLoop]
    cases lookupSet sets label with
    | none => exact stepsOk_buildLoop max_threads rest sets rsteps h
    | some set =>
      exact stepsOk_buildLoop max_threads rest _ _
        (stepsOk_foldl max_threads set _ (stepsOk_maybeBarrier rsteps h))

/-- C2: in every schedule produced by `build_with_max_threads` (and hence
by `build`, which calls it with `usize::MAX`), every parallel `Systems`
step is pairwise conflict-free: any two distinct member systems have no
pair of parameter kinds, one drawn from each, on which `conflicts_with`
returns `true` (in either orientation). -/
theorem built_parallel_steps_conflict_free (b : ScheduleBuilder)
    (max_threads : Nat) :
    ∀ step ∈ (b.build_with_max_threads max_threads).steps, ∀ ss,
      step = ScheduleStep.systems ss → ss.Pairwise nonConflictingPair := by
  intro step hmem ss hss
  have h0 : stepsOk ([] : List ScheduleStep) := by
    intro st hst
    cases hst
  have h1 := stepsOk_buildLoop max_threads b.order b.sets [] h0
  have hmem' : step ∈ buildLoop max_threads b.order b.sets [] := by
    simpa [ScheduleBuilder.build_with_max_threads, List.mem_reverse]
      using hmem
  exact h1 step hmem' ss hss

/-- Witness for C2: the parallel step actually built from
`witnessBuilderC2` is pairwise non-conflicting. -/
theorem built_parallel_steps_conflict_free_witness :
    ([SystemConfig.mk false false [SystemParamKind.compMut 0] 1,
      SystemConfig.mk false false [SystemParamKind.res 3] 2]).Pairwise
      nonConflictingPair :=
  built_parallel_steps_conflict_free witnessBuilderC2 8
    (ScheduleStep.systems
      [SystemConfig.mk false false [SystemParamKind.compMut 0] 1,
        SystemConfig.mk false false [SystemParamKind.res 3] 2])
    (by decide) _ rfl

/-- Helper: after the label-start barrier check, the leading run of open
parallel batches is empty, so it is trivially tagged with any label. -/
theorem leadTag_maybeBarrier (l : Nat) (rsteps : List ScheduleStep) :
    leadTag l (maybeBarrier rsteps) := by
  cases rsteps with
  | nil => exact trivial
  | cons st rest =>
    cases st with
    | systems ss => exact trivial
    | localSystems ss => exact trivial
    | exclusiveSystems ss => exact trivial
    | barrier => exact trivial

/-- Helper: a `LocalSystems` step is trivially label-homogeneous. -/
theorem batchTagHomog_nonSystems_local (ss : List SystemConfig) :
    batchTagHomog (ScheduleStep.localSystems ss) := by
  intro ss' hss'
  cases hss'

/-- Helper: an `ExclusiveSystems` step is trivially label-homogeneous. -/
theorem batchTagHomog_nonSystems_excl (ss : List SystemConfig) :
    batchTagHomog (ScheduleStep.exclusiveSystems ss) := by
  intro ss' hss'
  cases hss'

/-- Helper: a `Barrier` step is trivially label-homogeneous. -/
theorem batchTagHomog_barrier : batchTagHomog ScheduleStep.barrier := by
  intro ss' hss'
  cases hss'

/-- Helper: pushing a barrier preserves label homogeneity. -/
theorem stepsTagHomog_maybeBarrier (rsteps : List ScheduleStep)
    (h : stepsTagHomog rsteps) : stepsTagHomog (maybeBarrier rsteps) := by
  cases rsteps with
  | nil => exact h
  | cons st rest =>
    cases st with
    | systems ss =>
      simp only [maybeBarrier]
      intro st' hst'
      rcases List.mem_cons.mp hst' with rfl | h2
      · exact batchTagHomog_barrier
      · exact h st' h2
    | localSystems ss => exact h
    | exclusiveSystems ss => exact h
    | barrier => exact h

/-- Helper: inserting a system tagged with the current label into a batch
of the leading parallel run keeps the whole run tagged with that label. -/
theorem leadTag_insert (l : Nat) (s : SystemConfig) (hs : s.tag = l) :
    ∀ (pre : List ScheduleStep) (batch : List SystemConfig)
      (post : List ScheduleStep),
      (∀ st ∈ pre, ∃ b2, st = ScheduleStep.systems b2) →
      leadTag l (pre ++ ScheduleStep.systems batch :: post) →
      (∀ a ∈ batch, a.tag = l) ∧
        leadTag l (pre ++ ScheduleStep.systems (batch ++ [s]) :: post)
  | [], batch, post, _, h => by
    simp only [List.nil_append, leadTag] at h ⊢
    refine ⟨h.1, ?_, h.2⟩
    intro a ha
    rcases List.mem_append.mp ha with h2 | h2
    · exact h.1 a h2
    · rcases List.mem_singleton.mp h2 with rfl
      exact hs
  | st :: pre, batch, post, hpre, h => by
    obtain ⟨b2, rfl⟩ := hpre st (List.mem_cons_self st pre)
    simp only [List.cons_append, leadTag] at h ⊢
    have ih := leadTag_insert l s hs pre batch post
      (fun st' hst' => hpre st' (List.mem_cons_of_mem _ hst')) h.2
    exact ⟨ih.1, h.1, ih.2⟩

/-- Helper: each build iteration under the current label preserves both
label homogeneity of every batch and the all-current-label property of
the leading parallel run. -/
theorem tagInv_processSimpleStep (max_threads l : Nat)
    (rsteps : List ScheduleStep) (st : SimpleScheduleStep)
    (hst : simpleStepTagOk l st = true) (hh : stepsTagHomog rsteps)
    (hl : leadTag l rsteps) :
    stepsTagHomog (processSimpleStep max_threads rsteps st) ∧
      leadTag l (processSimpleStep max_threads rsteps st) := by
  cases st with
  | system s =>
    have hs : s.tag = l := by
      simpa [simpleStepTagOk] using hst
    simp only [processSimpleStep]
    cases hins : insertIntoBatch max_threads s rsteps with
    | none =>
      constructor
      · intro st' hst'
        rcases List.mem_cons.mp hst' with rfl | h2
        · intro ss hss
          cases hss
          intro a ha c hc
          rcases List.mem_singleton.mp ha with rfl
          rcases List.mem_singleton.mp hc with rfl
          rfl
        · exact hh st' h2
      · exact ⟨fun a ha => by
          rcases List.mem_singleton.mp ha with rfl
          exact hs, hl⟩
    | some r =>
      obtain ⟨pre, batch, post, he1, he2, he3, he4, he5⟩ :=
        insertIntoBatch_some_decomp max_threads s rsteps r hins
      subst he2
      subst he1
      have hlead := leadTag_insert l s hs pre batch post
        (fun st' hst' => by
          obtain ⟨b2, hb2, _⟩ := he5 st' hst'
          exact ⟨b2, hb2⟩) hl
      constructor
      · intro st' hst'
        rcases List.mem_append.mp hst' with hpreM | hrest
        · exact hh st' (List.mem_append_left _ hpreM)
        · rcases List.mem_cons.mp hrest with rfl | hpost
          · intro ss hss
            cases hss
            intro a ha c hc
            have h1 : ∀ x ∈ batch ++ [s], x.tag = l := by
              intro x hx
              rcases List.mem_append.mp hx with hx2 | hx2
              · exact hlead.1 x hx2
              · rcases List.mem_singleton.mp hx2 with rfl
                exact hs
            rw [h1 a ha, h1 c hc]
          · exact hh st'
              (List.mem_append_right _ (List.mem_cons_of_mem _ hpost))
      · exact hlead.2
  | localSystem s =>
    cases rsteps with
    | nil =>
      refine ⟨?_, trivial⟩
      intro st' hst'
      rcases List.mem_cons.mp hst' with rfl | h2
      · exact batchTagHomog_nonSystems_local _
      · cases h2
    | cons st0 rest =>
      cases st0 with
      | localSystems ss =>
        refine ⟨?_, trivial⟩
        intro st' hst'
        rcases List.mem_cons.mp hst' with rfl | h2
        · exact batchTagHomog_nonSystems_local _
        · exact hh st' (List.mem_cons_of_mem _ h2)
      | systems ss =>
        refine ⟨?_, trivial⟩
        intro st' hst'
        rcases List.mem_cons.mp hst' with rfl | h2
        · exact batchTagHomog_nonSystems_local _
        · exact hh st' h2
      | exclusiveSystems ss =>
        refine ⟨?_, trivial⟩
        intro st' hst'
        rcases List.mem_cons.mp hst' with rfl | h2
        · exact batchTagHomog_nonSystems_local _
        · exact hh st' h2
      | barrier =>
        refine ⟨?_, trivial⟩
        intro st' hst'
        rcases List.mem_cons.mp hst' with rfl | h2
        · exact batchTagHomog_nonSystems_local _
        · exact hh st' h2
  | exclusiveSystem s =>
    cases rsteps with
    | nil =>
      refine ⟨?_, trivial⟩
      intro st' hst'
      rcases List.mem_cons.mp hst' with rfl | h2
      · exact batchTagHomog_nonSystems_excl _
      · cases h2
    | cons st0 rest =>
      cases st0 with
      | exclusiveSystems ss =>
        refine ⟨?_, trivial⟩
        intro st' hst'
        rcases List.mem_cons.mp hst' with rfl | h2
        · exact batchTagHomog_nonSystems_excl _
        · exact hh st' (List.mem_cons_of_mem _ h2)
      | systems ss =>
        refine ⟨?_, trivial⟩
        intro st' hst'
        rcases List.mem_cons.mp hst' with rfl | h2
        · exact batchTagHomog_nonSystems_excl _
        · exact hh st' h2
      | localSystems ss =>
        refine ⟨?_, trivial⟩
        intro st' hst'
        rcases List.mem_cons.mp hst' with rfl | h2
        · exact batchTagHomog_nonSystems_excl _
        · exact hh st' h2
      | barrier =>
        refine ⟨?_, trivial⟩
        intro st' hst'
        rcases List.mem_cons.mp hst' with rfl | h2
        · exact batchTagHomog_nonSystems_excl _
        · exact hh st' h2
  | barrier =>
    exact ⟨stepsTagHomog_maybeBarrier rsteps hh, leadTag_maybeBarrier l rsteps⟩

/-- Helper: the inner set fold preserves label homogeneity. -/
theorem tagInv_foldl (max_threads l : Nat) :
    ∀ (set : List SimpleScheduleStep) (rsteps : List ScheduleStep),
      (∀ st ∈ set, simpleStepTagOk l st = true) →
      stepsTagHomog rsteps → leadTag l rsteps →
      stepsTagHomog (set.foldl (processSimpleStep max_threads) rsteps)
  | [], _, _, hh, _ => hh
  | st :: set, rsteps, hset, hh, hl => by
    have hinv := tagInv_processSimpleStep max_threads l rsteps st
      (hset st (List.mem_cons_self st set)) hh hl
    exact tagInv_foldl max_threads l set _
      (fun st' hst' => hset st' (List.mem_cons_of_mem _ hst'))
      hinv.1 hinv.2

/-- Helper: draining a set preserves the tagging hypothesis (an emptied
set satisfies it vacuously). -/
theorem htags_drainSet (sets : List (Nat × List SimpleScheduleStep))
    (l0 : Nat)
    (h : ∀ l set, lookupSet sets l = some set →
      ∀ st ∈ set, simpleStepTagOk l st = true) :
    ∀ l set, lookupSet (drainSet sets l0) l = some set →
      ∀ st ∈ set, simpleStepTagOk l st = true := by
  intro l set hls
  rw [lookupSet_drainSet] at hls
  by_cases h' : l = l0
  · rw [if_pos h'] at hls
    cases hlk : lookupSet sets l0 with
    | none => rw [hlk] at hls; cases hls
    | some s0 =>
      rw [hlk] at hls
      cases hls
      intro st hst
      cases hst
  · rw [if_neg h'] at hls
    exact h l set hls

/-- Helper: the outer label loop preserves label homogeneity. -/
theorem tagHomog_buildLoop (max_threads : Nat) :
    ∀ (order : List Nat) (sets : List (Nat × List SimpleScheduleStep))
      (rsteps : List ScheduleStep),
      (∀ l set, lookupSet sets l = some set →
        ∀ st ∈ set, simpleStepTagOk l st = true) →
      stepsTagHomog rsteps →
      stepsTagHomog (buildLoop max_threads order sets rsteps)
  | [], _, _, _, hh => hh
  | label :: rest, sets, rsteps, htags, hh => by
    simp only [buildLoop]
    cases hlk : lookupSet sets label with
    | none => exact tagHomog_buildLoop max_threads rest sets rsteps htags hh
    | some set =>
      refine tagHomog_buildLoop max_threads rest _ _
        (htags_drainSet sets label htags) ?_
      exact tagInv_foldl max_threads label set _
        (htags label set hlk)
        (stepsTagHomog_maybeBarrier rsteps hh)
        (leadTag_maybeBarrier label rsteps)

/-- C10: in every built schedule, no parallel `Systems` step mixes
systems added under two different labels: when every staged parallel
system of every label set carries its label in `tag`, all members of any
built parallel step share the same tag. This holds because moving to the
next label pushes a `Barrier` whenever the last emitted step is a
parallel step, and the backward placement scan stops at any non-`Systems`
step, so a system can never join a batch opened under an earlier label. -/
theorem parallel_batches_label_homogeneous (b : ScheduleBuilder)
    (max_threads : Nat)
    (htags : ∀ l set, lookupSet b.sets l = some set →
      ∀ st ∈ set, simpleStepTagOk l st = true) :
    ∀ step ∈ (b.build_with_max_threads max_threads).steps, ∀ ss,
      step = ScheduleStep.systems ss →
      ∀ a ∈ ss, ∀ c ∈ ss, a.tag = c.tag := by
  intro step hmem ss hss
  have h0 : stepsTagHomog ([] : List ScheduleStep) := by
    intro st hst
    cases hst
  have h1 := tagHomog_buildLoop max_threads b.order b.sets [] htags h0
  have hmem' : step ∈ buildLoop max_threads b.order b.sets [] := by
    simpa [ScheduleBuilder.build_with_max_threads, List.mem_reverse]
      using hmem
  exact h1 step hmem' ss hss

/-- Witness for C10 at the concrete two-system builder: the two members of
the built parallel step carry the same tag. -/
theorem parallel_batches_label_homogeneous_witness :
    (SystemConfig.mk false false [SystemParamKind.comp 0] 2).tag =
      (SystemConfig.mk false false [SystemParamKind.comp 1] 2).tag :=
  parallel_batches_label_homogeneous witnessBuilder10 4
    (by
      intro l set hls st hst
      match l, hls with
      | 2, hls =>
        cases hls
        rcases List.mem_cons.mp hst with rfl | hst2
        · decide
        · rcases List.mem_singleton.mp hst2 with rfl
          decide
      | 0, hls => cases hls
      | 1, hls => cases hls
      | (n + 3), hls => cases hls)
    (ScheduleStep.systems
      [SystemConfig.mk false false [SystemParamKind.comp 0] 2,
        SystemConfig.mk false false [SystemParamKind.comp 1] 2])
    (by decide) _ rfl
    (SystemConfig.mk false false [SystemParamKind.comp 0] 2) (by decide)
    (SystemConfig.mk false false [SystemParamKind.comp 1] 2) (by decide)

end Sparsey
